import Mathlib

/-!
Verification of the smx-dasm-rs section/table decoding core.

This file gives a shallow embedding of the Rust sources
`src/rtti/mod.rs` and `src/sections/mod.rs` and proves/refutes the
behavioural claims about them.

Modelling conventions:
* `u8`/`u32` values are `Nat`s holding the bit pattern; arithmetic that can
  wrap is taken modulo the width where the source can wrap.
* `i32` values are `Int`s (all comparisons in the embedded code are `i32`
  comparisons).
* Rust code that can panic (out-of-bounds indexing, `u8` shift overflow) is
  embedded as an `Option`-returning function where `none` models the panic.
* Loops are embedded as fuel-indexed structural recursions; the fuel passed
  by the wrappers strictly dominates the number of iterations the Rust loop
  can perform before returning or panicking, so `none` from the wrappers
  means a panic, not fuel exhaustion.
-/

/-- `CB::decode_u32` (src/rtti/mod.rs:83-103), loop body.
The source computes `value |= ((b & 0x7f) << shift) as u32` where
`b & 0x7f : u8`, so the shift is performed in `u8`: its result is truncated
to 8 bits, and a shift amount of 8 or more is an overflow panic (debug
semantics), modelled as `none`.  `none` is also returned when the byte index
runs off the end of the buffer (`bytes[*offset]` panics). -/
def decodeU32Go (bytes : List Nat) : Nat → Nat → Nat → Nat → Option (Nat × Nat)
  | 0, _, _, _ => none
  | fuel+1, off, value, shift =>
    match bytes.get? off with
    | none => none
    | some b =>
      if 8 ≤ shift then none
      else
        let value := value ||| (((b &&& 0x7f) <<< shift) % 256)
        if b &&& 0x80 = 0 then some (value, off + 1)
        else decodeU32Go bytes fuel (off + 1) value (shift + 7)

/-- `CB::decode_u32` (src/rtti/mod.rs:83-103): returns the decoded value and
the advanced offset.  The loop reads one byte per iteration and stops (or
panics) at the end of the buffer, so `bytes.length + 1` fuel is never
exhausted. -/
def decode_u32 (bytes : List Nat) (offset : Nat) : Option (Nat × Nat) :=
  decodeU32Go bytes (bytes.length + 1) offset 0 0

/-- Modelled from the spec: the little-endian base-128 variable-length
integer value of a byte sequence — each byte's low 7 bits contribute at an
increasing shift (7 bits per byte) while the high bit is set.  Used only to
state what `decode_u32` was meant to compute. -/
def varintValue : List Nat → Option Nat
  | [] => none
  | b :: rest =>
    if b &&& 0x80 = 0 then some (b &&& 0x7f)
    else (varintValue rest).map (fun v => (b &&& 0x7f) ||| (v <<< 7))

/-- The `.names` / `.dbg.names` table (src/sections/mod.rs:36-97).
`data` is the section's byte range of the container buffer (the source
indexes the full buffer at `data_offset + i` for `i < section.size`);
`names` is the `HashMap<i32, String>` memoization cache, as an association
list keyed by offset.  Cached strings are kept as raw byte lists: the
source's `String::from_utf8_lossy(..).into_owned()` is a pure function of
the scanned bytes, so idempotence/memoization are unaffected. -/
structure SMXNameTable where
  data : List Nat
  names : List (Int × List Nat)
deriving DecidableEq

/-- `SMXNameTable::string_at` (src/sections/mod.rs:76-96).
Outer `none` models a panic (negative offset underflows the buffer index);
the inner `Option` models `Result` (`none` = `Err(Error::InvalidIndex)`).
The returned table is the receiver after the call: the source never inserts
the scanned string into `names`, so the cache comes back unchanged. -/
def string_at (t : SMXNameTable) (index : Int) : Option (Option (List Nat) × SMXNameTable) :=
  match t.names.lookup index with
  | some v => some (some v, t)
  | none =>
    if (t.data.length : Int) ≤ index then some (none, t)
    else if index < 0 then none
    else some (some ((t.data.drop index.toNat).takeWhile (fun b => b != 0)), t)

/-- `RTTIMethod` (src/rtti/mod.rs:362-370). -/
structure RTTIMethod where
  name : String
  pcode_start : Int
  pcode_end : Int
  signature : Int
deriving DecidableEq

instance : Inhabited RTTIMethod := ⟨⟨"", 0, 0, 0⟩⟩

/-- Modelled from the spec: a debug-methods row `{method_index, first_local}`
giving, per debug-visible method, the index into the variable-symbol table
where that method's locals begin (the row struct lives in the crate's
`v1types` module, not present under src/; the fields are those the spec
names and `find_local` reads). -/
structure DebugMethodEntry where
  method_index : Int
  first_local : Int
deriving DecidableEq

instance : Inhabited DebugMethodEntry := ⟨⟨0, 0⟩⟩

/-- Modelled from the spec: a variable-symbol row
`{name, address, code_start, code_end}` (the row struct lives in the crate's
`v1types` module, not present under src/; the fields are those the spec
names and `find_global`/`find_local` read). -/
structure DebugVarEntry where
  name : String
  address : Int
  code_start : Int
  code_end : Int
deriving DecidableEq

instance : Inhabited DebugVarEntry := ⟨⟨"", 0, 0, 0⟩⟩

/-- The parts of `SMXFile` (src/file.rs, not present under src/) that the
type decoder and `find_local` read, modelled from their use sites: the RTTI
reference tables are kept as the name strings the decoder's branches fetch
(`enums()[i]`, `typedefs()[i].name`, `typesets()[i].name`, `defs()[i].name`,
`entries()[i].name`), and the two debug-method tables are optional as in
`find_local`'s `is_some` tests. -/
structure SMXFile where
  rtti_enums : List String
  rtti_typedefs : List String
  rtti_typesets : List String
  rtti_classdefs : List String
  rtti_enum_structs : List String
  debug_methods : Option (List DebugMethodEntry)
  rtti_methods : Option (List RTTIMethod)
deriving DecidableEq

/-- The mutable state of `TypeBuilder` (src/rtti/mod.rs:182-197): the read
cursor and the `is_const` flag (`file` and `bytes` are immutable and passed
separately). -/
structure TB where
  offset : Nat
  is_const : Bool
deriving DecidableEq

/-- `TypeBuilder::match` (src/rtti/mod.rs:313-321): peek one byte (panic if
out of bounds, modelled `none`), consume it when it equals `b`. -/
def tbMatch (bytes : List Nat) (b : Nat) (s : TB) : Option (Bool × TB) :=
  match bytes.get? s.offset with
  | none => none
  | some x => if x ≠ b then some (false, s) else some (true, { s with offset := s.offset + 1 })

/-- Which of the mutually recursive `TypeBuilder` entry points is running:
`mnew` = `decode_new`, `mplain` = `decode`, `mfunc` = `decode_function`,
`margs n first` = the argument loop of `decode_function` with `n` arguments
left (`first` tracks whether a `", "` separator is due, reproducing
`argv.join(", ")`). -/
inductive TBMode where
  | mnew : TBMode
  | mplain : TBMode
  | mfunc : TBMode
  | margs : Nat → Bool → TBMode
deriving DecidableEq

/-- The `TypeBuilder` decoder (src/rtti/mod.rs:199-311), all four entry
points in one fuel-indexed function (the Rust methods are mutually
recursive through a shared `&mut self`).  `none` models a panic: reading
past the end of `bytes`, or an out-of-range index into one of the RTTI
reference tables.  Byte-for-byte:
* `mnew` (`decode_new`): save `is_const`, clear it, `decode`, prepend
  `"const "` if the inner decode set the flag, restore the saved flag;
* `mplain` (`decode`): `is_const |= match(CONST)`, read the tag byte,
  dispatch; `FIXEDARRAY`/`ARRAY` decode their element with `decode`
  (not `decode_new`); named references decode an index with `decode_u32`
  and fetch the name from the file's table; any other tag renders
  `"unknown type code: N"`;
* `mfunc` (`decode_function`): read `argc`, consume an optional `VARIADIC`,
  special-case a `VOID` return else `decode_new`, decode `argc` arguments
  (each with an optional `BYREF` consumed first and `&` appended), render
  `function <ret> (<args>[...])`. -/
def decodeM (f : SMXFile) (bytes : List Nat) : Nat → TBMode → TB → Option (String × TB)
  | 0, _, _ => none
  | fuel+1, TBMode.mnew, s =>
    match decodeM f bytes fuel TBMode.mplain { s with is_const := false } with
    | none => none
    | some (r, s') =>
      some (if s'.is_const then "const " ++ r else r, { s' with is_const := s.is_const })
  | fuel+1, TBMode.mplain, s =>
    match tbMatch bytes 0x73 s with
    | none => none
    | some (m, s) =>
      let s := { s with is_const := s.is_const || m }
      match bytes.get? s.offset with
      | none => none
      | some b =>
        let s := { s with offset := s.offset + 1 }
        if b = 0x01 then some ("bool", s)
        else if b = 0x06 then some ("int", s)
        else if b = 0x0c then some ("float", s)
        else if b = 0x0e then some ("char", s)
        else if b = 0x10 then some ("any", s)
        else if b = 0x11 then some ("Function", s)
        else if b = 0x30 then
          match decode_u32 bytes s.offset with
          | none => none
          | some (index, off) =>
            match decodeM f bytes fuel TBMode.mplain { s with offset := off } with
            | none => none
            | some (inner, s') => some (inner ++ "[" ++ toString index ++ "]", s')
        else if b = 0x31 then
          match decodeM f bytes fuel TBMode.mplain s with
          | none => none
          | some (inner, s') => some (inner ++ "[]", s')
        else if b = 0x42 then
          match decode_u32 bytes s.offset with
          | none => none
          | some (index, off) =>
            match f.rtti_enums.get? index with
            | none => none
            | some name => some (name, { s with offset := off })
        else if b = 0x43 then
          match decode_u32 bytes s.offset with
          | none => none
          | some (index, off) =>
            match f.rtti_typedefs.get? index with
            | none => none
            | some name => some (name, { s with offset := off })
        else if b = 0x44 then
          match decode_u32 bytes s.offset with
          | none => none
          | some (index, off) =>
            match f.rtti_typesets.get? index with
            | none => none
            | some name => some (name, { s with offset := off })
        else if b = 0x45 then
          match decode_u32 bytes s.offset with
          | none => none
          | some (index, off) =>
            match f.rtti_classdefs.get? index with
            | none => none
            | some name => some (name, { s with offset := off })
        else if b = 0x32 then decodeM f bytes fuel TBMode.mfunc s
        else if b = 0x46 then
          match decode_u32 bytes s.offset with
          | none => none
          | some (index, off) =>
            match f.rtti_enum_structs.get? index with
            | none => none
            | some name => some (name, { s with offset := off })
        else some ("unknown type code: " ++ toString b, s)
  | fuel+1, TBMode.mfunc, s =>
    match bytes.get? s.offset with
    | none => none
    | some argc =>
      let s := { s with offset := s.offset + 1 }
      match bytes.get? s.offset with
      | none => none
      | some vb =>
        let variadic := vb = 0x71
        let s := if vb = 0x71 then { s with offset := s.offset + 1 } else s
        match bytes.get? s.offset with
        | none => none
        | some rb =>
          let ret :=
            if rb = 0x70 then some ("void", { s with offset := s.offset + 1 })
            else decodeM f bytes fuel TBMode.mnew s
          match ret with
          | none => none
          | some (return_type, s) =>
            match decodeM f bytes fuel (TBMode.margs argc true) s with
            | none => none
            | some (args, s') =>
              some ("function " ++ return_type ++ " (" ++ args ++
                (if variadic then "..." else "") ++ ")", s')
  | _+1, TBMode.margs 0 _, s => some ("", s)
  | fuel+1, TBMode.margs (n+1) first, s =>
    match tbMatch bytes 0x72 s with
    | none => none
    | some (is_byref, s) =>
      match decodeM f bytes fuel TBMode.mnew s with
      | none => none
      | some (text, s) =>
        let text := if is_byref then text ++ "&" else text
        match decodeM f bytes fuel (TBMode.margs n false) s with
        | none => none
        | some (rest, s') =>
          some ((if first then "" else ", ") ++ text ++ rest, s')

/-- Fuel that dominates the number of nested `TypeBuilder` calls any run over
`bytes` can make: every `decode`/`decode_function` call consumes at least one
byte before recursing, and `decode_new`/argument steps interleave with them. -/
def tbFuel (bytes : List Nat) : Nat := 2 * bytes.length + 16

/-- `SMXRTTIData::type_from_id` (src/rtti/mod.rs:124-149).  `type_id` is the
32-bit value (bit pattern): the low 4 bits are the kind, the next 28 the
payload.  Inline kind re-materialises the payload as 4 little-endian bytes
and decodes them; complex kind decodes `bytes` (the RTTI data blob) at
offset `payload` via `build_type_name`; any other kind renders the
diagnostic string. -/
def type_from_id (f : SMXFile) (bytes : List Nat) (type_id : Nat) : Option String :=
  let kind := type_id % 16
  let payload := (type_id / 16) % (2 ^ 28)
  if kind = 0 then
    let temp := [payload % 256, (payload / 2 ^ 8) % 256,
                 (payload / 2 ^ 16) % 256, (payload / 2 ^ 24) % 256]
    (decodeM f temp (tbFuel temp) TBMode.mnew ⟨0, false⟩).map (·.1)
  else if kind ≠ 1 then some ("Unknown type_id kind: " ++ toString kind)
  else (decodeM f bytes (tbFuel bytes) TBMode.mnew ⟨payload, false⟩).map (·.1)

/-- `SMXRTTIData::function_type_from_offset` (src/rtti/mod.rs:151-155). -/
def function_type_from_offset (f : SMXFile) (bytes : List Nat) (offset : Nat) : Option String :=
  (decodeM f bytes (tbFuel bytes) TBMode.mfunc ⟨offset, false⟩).map (·.1)

/-- The loop of `typeset_types_from_offset`: `count` calls of
`builder.decode_new()` against one shared builder state. -/
def typesetGo (f : SMXFile) (bytes : List Nat) : Nat → TB → Option (List String)
  | 0, _ => some []
  | n+1, s =>
    match decodeM f bytes (tbFuel bytes) TBMode.mnew s with
    | none => none
    | some (t, s') => (typesetGo f bytes n s').map (t :: ·)

/-- `SMXRTTIData::typeset_types_from_offset` (src/rtti/mod.rs:157-169).
The count is decoded through `&mut offset.clone()`, so the advance is
discarded and the builder starts at the original `offset` — at the count
bytes themselves, not after them. -/
def typeset_types_from_offset (f : SMXFile) (bytes : List Nat) (offset : Nat) :
    Option (List String) :=
  match decode_u32 bytes offset with
  | none => none
  | some (count, _) => typesetGo f bytes count ⟨offset, false⟩

/-- A file whose reference tables are all empty, for concrete runs that do
not touch them. -/
def emptyFile : SMXFile := ⟨[], [], [], [], [], none, none⟩

/-- A little-endian `u32` read at byte position `pos` (`none` when the four
bytes are not all available, as `byteorder`'s `read_u32` errors there). -/
def readU32LE (bytes : List Nat) (pos : Nat) : Option Nat :=
  match bytes.get? pos, bytes.get? (pos + 1), bytes.get? (pos + 2), bytes.get? (pos + 3) with
  | some a, some b, some c, some d =>
    some (a + 256 * b + 65536 * c + 16777216 * d)
  | _, _, _, _ => none

/-- Interpret a `u32` bit pattern as an `i32` value. -/
def toI32 (n : Nat) : Int :=
  if n < 2 ^ 31 then (n : Int) else (n : Int) - 2 ^ 32

/-- `SMXRTTIListTable::init` (src/rtti/mod.rs:29-40): read the three leading
little-endian `u32` fields `header_size`, `row_size`, `row_count` from the
start of the section data. -/
def rttiListTableInit (data : List Nat) : Option (Nat × Nat × Nat) :=
  match readU32LE data 0, readU32LE data 4, readU32LE data 8 with
  | some hs, some rs, some rc => some (hs, rs, rc)
  | _, _, _ => none

/-- Modelled from the spec: reading one debug-methods row
`{method_index, first_local}` — two little-endian `i32` fields — from the
start of the byte buffer it is handed (`DebugMethodEntry::new` lives in the
crate's `v1types` module, not present under src/; it receives a fresh copy
of the whole section and has no cursor into it, so it can only read from the
front). -/
def debugMethodEntryNew (data : List Nat) : Option DebugMethodEntry :=
  match readU32LE data 0, readU32LE data 4 with
  | some a, some b => some ⟨toI32 a, toI32 b⟩
  | _, _ => none

/-- `SMXDebugMethods::new` (src/sections/mod.rs:559-574): `rtti.init` on the
section data, then `row_count` iterations of
`entries.push(DebugMethodEntry::new(base.get_data())?)` — every iteration
hands the row reader the same full section byte vector. -/
def SMXDebugMethods_new (data : List Nat) : Option (List DebugMethodEntry) :=
  match rttiListTableInit data with
  | none => none
  | some (_, _, rc) => (List.range rc).mapM (fun _ => debugMethodEntryNew data)

/-- `SMXDebugSymbols` (src/sections/mod.rs:586-641): the decoded rows and
the lazily sorted working copy (`new` leaves `address_sorted` as an empty
vector with reserved capacity). -/
structure SMXDebugSymbols where
  entries : List DebugVarEntry
  address_sorted : List DebugVarEntry
deriving DecidableEq

/-- Stable insertion into a list kept in descending address order, matching
the comparator `|a, b| b.address.cmp(&a.address)` of `sort_by` (a stable
sort). -/
def insertDescByAddress (e : DebugVarEntry) : List DebugVarEntry → List DebugVarEntry
  | [] => [e]
  | x :: xs => if x.address < e.address then e :: x :: xs else x :: insertDescByAddress e xs

/-- The effect of `self.address_sorted.sort_by(|a, b| b.address.cmp(&a.address))`:
a stable sort of `address_sorted` into descending address order. -/
def sortDescByAddress (l : List DebugVarEntry) : List DebugVarEntry :=
  l.foldr insertDescByAddress []

/-- `SMXDebugSymbols::ensure_sorted_addresses` (src/sections/mod.rs:612-620):
if the working copy is non-empty, return unchanged; otherwise sort the
(empty) working copy in place.  Nothing ever copies `entries` into
`address_sorted`. -/
def ensure_sorted_addresses (s : SMXDebugSymbols) : SMXDebugSymbols :=
  if s.address_sorted ≠ [] then s
  else { s with address_sorted := sortDescByAddress s.address_sorted }

/-- The scan loop of `SMXDebugGlobals::find_global` (src/sections/mod.rs:658-678)
over `address_sorted`, with the `i + 1` lookahead carried as the head of the
remaining list. -/
def findGlobalLoop (addr : Int) : List DebugVarEntry → Option DebugVarEntry
  | [] => none
  | [sym] => if sym.address = addr then some sym else none
  | sym :: next :: rest =>
    if sym.address = addr then some sym
    else if addr < sym.address then none
    else if sym.address < addr ∧ addr < next.address then some sym
    else findGlobalLoop addr (next :: rest)

/-- `SMXDebugGlobals::find_global` (src/sections/mod.rs:655-681):
`ensure_sorted_addresses`, then the lookahead scan over `address_sorted`. -/
def find_global (g : SMXDebugSymbols) (addr : Int) : Option DebugVarEntry :=
  findGlobalLoop addr (ensure_sorted_addresses g).address_sorted

/-- The enclosing-method test inlined in `SMXDebugLocals::find_local`
(src/sections/mod.rs:709): `code_addr > method.pcode_start && code_addr <
method.pcode_end` — strict at both ends. -/
def enclosesCodeAddr (code_addr : Int) (m : RTTIMethod) : Bool :=
  m.pcode_start < code_addr && code_addr < m.pcode_end

/-- The method scan of `find_local` (src/sections/mod.rs:705-713): walk the
debug-methods rows, look the row's `method_index` up in the RTTI methods
table (outer `none` = out-of-range index panic), and return the position of
the first row whose method's pcode range strictly contains `code_addr`. -/
def scanMethods (rtti : List RTTIMethod) (code_addr : Int) :
    List DebugMethodEntry → Nat → Option (Option Nat)
  | [], _ => some none
  | e :: rest, i =>
    if 0 ≤ e.method_index ∧ e.method_index.toNat < rtti.length then
      if enclosesCodeAddr code_addr (rtti.getD e.method_index.toNat default)
      then some (some i)
      else scanMethods rtti code_addr rest (i + 1)
    else none

/-- The symbol window loop of `find_local` (src/sections/mod.rs:724-744):
`i` walks from `start_at` to `stop_at` over the unsorted `entries`; symbols
whose `code_start`/`code_end` range does not contain `code_addr` are
skipped; an exact address match returns; at `stop_at - 1` the loop breaks;
otherwise the `i + 1` lookahead applies the between-neighbours rule.  The
fuel counts the remaining iterations, `(stop_at - i).toNat` at entry; outer
`none` = index-out-of-bounds panic on `entries`. -/
def windowGo (entries : List DebugVarEntry) (code_addr addr : Int) (stop_at : Int) :
    Nat → Int → Option (Option DebugVarEntry)
  | 0, _ => some none
  | fuel+1, i =>
    if 0 ≤ i ∧ i.toNat < entries.length then
      let sym := entries.getD i.toNat default
      if code_addr < sym.code_start ∨ sym.code_end ≤ code_addr then
        windowGo entries code_addr addr stop_at fuel (i + 1)
      else if sym.address = addr then some (some sym)
      else if i = stop_at - 1 then some none
      else if 0 ≤ i + 1 ∧ (i + 1).toNat < entries.length then
        let next_sym := entries.getD (i + 1).toNat default
        if sym.address < addr ∧ addr < next_sym.address then some (some sym)
        else windowGo entries code_addr addr stop_at fuel (i + 1)
      else none
    else none

/-- `for i in start_at..stop_at { .. }` of `find_local`, with the iteration
count `(stop_at - start_at).toNat` as fuel. -/
def windowLoop (entries : List DebugVarEntry) (code_addr addr : Int)
    (start_at stop_at : Int) : Option (Option DebugVarEntry) :=
  windowGo entries code_addr addr stop_at (stop_at - start_at).toNat start_at

/-- `SMXDebugLocals::find_local` (src/sections/mod.rs:698-747): when both
`debug_methods` and `rtti_methods` are present, the method scan may narrow
the window `[start_at, stop_at)` from its default of the whole symbol table
to `[first_local of the found row, first_local of the next row)` (table end
for the last row); then the window loop runs. -/
def find_local (f : SMXFile) (entries : List DebugVarEntry) (code_addr addr : Int) :
    Option (Option DebugVarEntry) :=
  let len : Int := entries.length
  match f.debug_methods, f.rtti_methods with
  | some dm, some rtti =>
    match scanMethods rtti code_addr dm 0 with
    | none => none
    | some none => windowLoop entries code_addr addr 0 len
    | some (some i) =>
      let start_at := (dm.getD i default).first_local
      let stop_at := if i ≠ dm.length - 1 then (dm.getD (i + 1) default).first_local else len
      windowLoop entries code_addr addr start_at stop_at
  | _, _ => windowLoop entries code_addr addr 0 len

/-- `DebugFileEntry` (v1types, not present under src/): the fields
`find_file` reads are the row's `u32` code address and its resolved name. -/
structure DebugFileEntry where
  address : Nat
  name : String
deriving DecidableEq

instance : Inhabited DebugFileEntry := ⟨⟨0, ""⟩⟩

/-- `DebugLineEntry` (v1types, not present under src/): the fields
`find_file` reads are the row's `u32` code address and its zero-based
`u32` line. -/
structure DebugLineEntry where
  address : Nat
  line : Nat
deriving DecidableEq

instance : Inhabited DebugLineEntry := ⟨⟨0, 0⟩⟩

/-- The shared binary-search loop of `SMXDebugFilesTable::find_file`
(src/sections/mod.rs:457-476) and `SMXDebugLinesTable::find_file`
(src/sections/mod.rs:513-532):
`while high - low > 1 { mid = (low + high) / 2; if key(mid) <= addr { low =
mid } else { high = mid } }`, with `key i` the address of row `i`.  Both
sources inline this identical loop.  `low + high` is non-negative whenever
the loop body runs (`low ≥ -1`, `high ≥ low + 2`), where Lean's `Int`
division agrees with Rust's truncating `i32` division.  The fuel dominates
the iteration count (`high - low` shrinks by at least one per step). -/
def bsGo (key : Nat → Nat) (addr : Nat) : Nat → Int → Int → Int
  | 0, low, _ => low
  | fuel+1, low, high =>
    if 1 < high - low then
      let mid := (low + high) / 2
      if key mid.toNat ≤ addr then bsGo key addr fuel mid high
      else bsGo key addr fuel low mid
    else low

/-- `SMXDebugFilesTable::find_file` (src/sections/mod.rs:457-476). -/
def SMXDebugFilesTable_find_file (entries : List DebugFileEntry) (addr : Nat) : Option String :=
  let low := bsGo (fun i => (entries.getD i default).address) addr
    (entries.length + 2) (-1) entries.length
  if low = -1 then none else some (entries.getD low.toNat default).name

/-- `SMXDebugLinesTable::find_file` (src/sections/mod.rs:513-532): same
search, returning `line + 1` (a `u32` addition, hence the reduction modulo
`2^32`). -/
def SMXDebugLinesTable_find_file (entries : List DebugLineEntry) (addr : Nat) : Option Nat :=
  let low := bsGo (fun i => (entries.getD i default).address) addr
    (entries.length + 2) (-1) entries.length
  if low = -1 then none
  else some (((entries.getD low.toNat default).line + 1) % 2 ^ 32)

/-- Modelled from the spec: the type decoder as the spec's words describe
the `is_const` discipline — identical to `decodeM` except that each array
element type (`FIXEDARRAY`/`ARRAY`) is decoded as its own "new"
(flag-resetting) type, i.e. through the `mnew` wrapper, since the spec lists
"each array element type" among the decode-call boundaries that reset the
flag.  Used only to compare against the source's decoder, whose array
branches call `decode` and therefore share the enclosing flag. -/
def decodeSpecM (f : SMXFile) (bytes : List Nat) : Nat → TBMode → TB → Option (String × TB)
  | 0, _, _ => none
  | fuel+1, TBMode.mnew, s =>
    match decodeSpecM f bytes fuel TBMode.mplain { s with is_const := false } with
    | none => none
    | some (r, s') =>
      some (if s'.is_const then "const " ++ r else r, { s' with is_const := s.is_const })
  | fuel+1, TBMode.mplain, s =>
    match tbMatch bytes 0x73 s with
    | none => none
    | some (m, s) =>
      let s := { s with is_const := s.is_const || m }
      match bytes.get? s.offset with
      | none => none
      | some b =>
        let s := { s with offset := s.offset + 1 }
        if b = 0x01 then some ("bool", s)
        else if b = 0x06 then some ("int", s)
        else if b = 0x0c then some ("float", s)
        else if b = 0x0e then some ("char", s)
        else if b = 0x10 then some ("any", s)
        else if b = 0x11 then some ("Function", s)
        else if b = 0x30 then
          match decode_u32 bytes s.offset with
          | none => none
          | some (index, off) =>
            match decodeSpecM f bytes fuel TBMode.mnew { s with offset := off } with
            | none => none
            | some (inner, s') => some (inner ++ "[" ++ toString index ++ "]", s')
        else if b = 0x31 then
          match decodeSpecM f bytes fuel TBMode.mnew s with
          | none => none
          | some (inner, s') => some (inner ++ "[]", s')
        else if b = 0x42 then
          match decode_u32 bytes s.offset with
          | none => none
          | some (index, off) =>
            match f.rtti_enums.get? index with
            | none => none
            | some name => some (name, { s with offset := off })
        else if b = 0x43 then
          match decode_u32 bytes s.offset with
          | none => none
          | some (index, off) =>
            match f.rtti_typedefs.get? index with
            | none => none
            | some name => some (name, { s with offset := off })
        else if b = 0x44 then
          match decode_u32 bytes s.offset with
          | none => none
          | some (index, off) =>
            match f.rtti_typesets.get? index with
            | none => none
            | some name => some (name, { s with offset := off })
        else if b = 0x45 then
          match decode_u32 bytes s.offset with
          | none => none
          | some (index, off) =>
            match f.rtti_classdefs.get? index with
            | none => none
            | some name => some (name, { s with offset := off })
        else if b = 0x32 then decodeSpecM f bytes fuel TBMode.mfunc s
        else if b = 0x46 then
          match decode_u32 bytes s.offset with
          | none => none
          | some (index, off) =>
            match f.rtti_enum_structs.get? index with
            | none => none
            | some name => some (name, { s with offset := off })
        else some ("unknown type code: " ++ toString b, s)
  | fuel+1, TBMode.mfunc, s =>
    match bytes.get? s.offset with
    | none => none
    | some argc =>
      let s := { s with offset := s.offset + 1 }
      match bytes.get? s.offset with
      | none => none
      | some vb =>
        let variadic := vb = 0x71
        let s := if vb = 0x71 then { s with offset := s.offset + 1 } else s
        match bytes.get? s.offset with
        | none => none
        | some rb =>
          let ret :=
            if rb = 0x70 then some ("void", { s with offset := s.offset + 1 })
            else decodeSpecM f bytes fuel TBMode.mnew s
          match ret with
          | none => none
          | some (return_type, s) =>
            match decodeSpecM f bytes fuel (TBMode.margs argc true) s with
            | none => none
            | some (args, s') =>
              some ("function " ++ return_type ++ " (" ++ args ++
                (if variadic then "..." else "") ++ ")", s')
  | _+1, TBMode.margs 0 _, s => some ("", s)
  | fuel+1, TBMode.margs (n+1) first, s =>
    match tbMatch bytes 0x72 s with
    | none => none
    | some (is_byref, s) =>
      match decodeSpecM f bytes fuel TBMode.mnew s with
      | none => none
      | some (text, s) =>
        let text := if is_byref then text ++ "&" else text
        match decodeSpecM f bytes fuel (TBMode.margs n false) s with
        | none => none
        | some (rest, s') =>
          some ((if first then "" else ", ") ++ text ++ rest, s')

/-- Loop invariant of the shared binary search: starting from a window
`(low, high]`-style state with `key low ≤ addr` (or `low = -1`) and
`addr < key high` (or `high = len`), the loop returns the greatest index
`r` with `key r ≤ addr`, expressed by the same pair of one-sided bounds at
`r` and `r + 1`. -/
theorem bsGo_spec (key : Nat → Nat) (addr len : Nat) :
    ∀ (fuel : Nat) (low high : Int), high - low ≤ (fuel : Int) →
    -1 ≤ low → low < high → high ≤ (len : Int) →
    (low = -1 ∨ key low.toNat ≤ addr) →
    (high = (len : Int) ∨ (high < (len : Int) ∧ addr < key high.toNat)) →
    (-1 ≤ bsGo key addr fuel low high ∧ bsGo key addr fuel low high < (len : Int)) ∧
    (bsGo key addr fuel low high = -1 ∨ key (bsGo key addr fuel low high).toNat ≤ addr) ∧
    (bsGo key addr fuel low high + 1 = (len : Int) ∨
      (bsGo key addr fuel low high + 1 < (len : Int) ∧
        addr < key (bsGo key addr fuel low high + 1).toNat)) := by
  intro fuel
  induction fuel with
  | zero => intro low high hf h1 h2 h3 _ _; exfalso; omega
  | succ n ih =>
    intro low high hf h1 h2 h3 hlo hhi
    by_cases hgap : (1 : Int) < high - low
    · have hmid : low < (low + high) / 2 ∧ (low + high) / 2 < high := by omega
      by_cases hk : key ((low + high) / 2).toNat ≤ addr
      · have : bsGo key addr (n + 1) low high = bsGo key addr n ((low + high) / 2) high := by
          simp only [bsGo, if_pos hgap, if_pos hk]
        rw [this]
        exact ih ((low + high) / 2) high (by omega) (by omega) hmid.2 h3 (Or.inr hk) hhi
      · have : bsGo key addr (n + 1) low high = bsGo key addr n low ((low + high) / 2) := by
          simp only [bsGo, if_pos hgap, if_neg hk]
        rw [this]
        exact ih low ((low + high) / 2) (by omega) h1 hmid.1 (by omega) hlo
          (Or.inr ⟨by omega, by omega⟩)
    · have hr : bsGo key addr (n + 1) low high = low := by
        simp only [bsGo, if_neg hgap]
      rw [hr]
      have hhigh : high = low + 1 := by omega
      refine ⟨⟨h1, by omega⟩, hlo, ?_⟩
      rcases hhi with h | h
      · left; omega
      · right
        refine ⟨by omega, ?_⟩
        have : low + 1 = high := by omega
        rw [this]
        exact h.2

/-- Characterisation of the search's public entry
(`low = -1, high = len, fuel = len + 2`) over an address-ascending key:
`-1` comes back exactly when the table is empty or the query is below the
first address, and otherwise the result is the greatest index whose address
is `≤ addr`. -/
theorem bsGo_char (key : Nat → Nat) (addr len : Nat)
    (hsort : ∀ i j : Nat, i ≤ j → j < len → key i ≤ key j) :
    (bsGo key addr (len + 2) (-1) len = -1 ↔ (len = 0 ∨ addr < key 0)) ∧
    (∀ k : Nat, k < len → key k ≤ addr → (∀ j : Nat, j < len → key j ≤ addr → j ≤ k) →
      bsGo key addr (len + 2) (-1) len = (k : Int)) := by
  obtain ⟨⟨hr1, hr2⟩, hr3, hr4⟩ :=
    bsGo_spec key addr len (len + 2) (-1) len (by push_cast; omega) (by omega)
      (by omega) (by omega) (Or.inl rfl) (Or.inl rfl)
  set r := bsGo key addr (len + 2) (-1) len with hrdef
  constructor
  · constructor
    · intro h
      rw [h] at hr4
      norm_num at hr4
      rcases hr4 with h0 | h0
      · left; exact_mod_cast h0.symm
      · right
        rcases h0 with ⟨-, hx⟩
        simpa using hx
    · intro h
      rcases h with h | h
      · omega
      · by_contra hne
        have hge : 0 ≤ r := by omega
        rcases hr3 with h3 | h3
        · omega
        · have : key 0 ≤ key r.toNat := hsort 0 r.toNat (Nat.zero_le _) (by omega)
          omega
  · intro k hk hkle hmax
    have hrne : r ≠ -1 := by
      intro h
      rw [h] at hr4
      rcases hr4 with h0 | h0
      · omega
      · have : ((-1 : Int) + 1).toNat = 0 := by decide
        rw [this] at h0
        have : key 0 ≤ key k := hsort 0 k (Nat.zero_le _) hk
        omega
    have hge : 0 ≤ r := by omega
    rcases hr3 with h3 | h3
    · omega
    have hrk : r.toNat ≤ k := hmax r.toNat (by omega) h3
    have : ¬ r.toNat < k := by
      intro hlt
      rcases hr4 with h4 | h4
      · omega
      · have he : (r + 1).toNat = r.toNat + 1 := by omega
        rw [he] at h4
        have : key (r.toNat + 1) ≤ key k := hsort (r.toNat + 1) k (by omega) hk
        omega
    omega

/-- An address-ascending row list gives an index-monotone key function. -/
theorem pairwise_getD_mono {α} [Inhabited α] (l : List α) (f : α → Nat)
    (hp : l.Pairwise (fun a b => f a ≤ f b)) :
    ∀ i j : Nat, i ≤ j → j < l.length → f (l.getD i default) ≤ f (l.getD j default) := by
  intro i j hij hj
  rcases Nat.eq_or_lt_of_le hij with h | h
  · subst h; exact le_refl _
  · have hi : i < l.length := lt_trans h hj
    rw [l.getD_eq_getElem default hi, l.getD_eq_getElem default hj]
    exact List.pairwise_iff_getElem.mp hp i j hi hj h

/-- The head of a list with a fallback is its entry `0` with the same
fallback. -/
theorem headD_eq_getD_zero {α} (l : List α) (d : α) : l.headD d = l.getD 0 d := by
  cases l <;> rfl

/-- The binary search of both `find_file` functions, characterised for an
address-ascending row list: `-1` exactly on (empty table or query below the
first row), else the greatest row whose address is `≤ addr`. -/
theorem find_low_char {α} [Inhabited α] (l : List α) (f : α → Nat) (addr : Nat)
    (hp : l.Pairwise (fun a b => f a ≤ f b)) :
    (bsGo (fun i => f (l.getD i default)) addr (l.length + 2) (-1) l.length = -1 ↔
      (l = [] ∨ addr < f (l.headD default))) ∧
    (∀ k : Nat, k < l.length → f (l.getD k default) ≤ addr →
      (∀ j : Nat, j < l.length → f (l.getD j default) ≤ addr → j ≤ k) →
      bsGo (fun i => f (l.getD i default)) addr (l.length + 2) (-1) l.length = (k : Int)) := by
  obtain ⟨h1, h2⟩ := bsGo_char (fun i => f (l.getD i default)) addr l.length
    (pairwise_getD_mono l f hp)
  constructor
  · rw [h1, headD_eq_getD_zero, List.length_eq_zero]
  · exact h2

/-- C8: Interval lookup on the files and lines tables: for every
address-ascending table and every query address, `find_file` returns the
value of the greatest row whose address is `<=` the query (the file name for
the files table, the stored zero-based line plus 1 for the lines table), and
returns `none` exactly when the query address is below the first row's
address (or the table is empty).  The lines-table hypothesis `line + 1 <
2^32` keeps the `u32` increment below the wrap the format never reaches. -/
theorem c8_find_file_greatest_le
    (files : List DebugFileEntry) (lines : List DebugLineEntry) (addr : Nat)
    (hf : files.Pairwise (fun a b => a.address ≤ b.address))
    (hl : lines.Pairwise (fun a b => a.address ≤ b.address))
    (hline : ∀ e ∈ lines, e.line + 1 < 2 ^ 32) :
    (SMXDebugFilesTable_find_file files addr = none ↔
      (files = [] ∨ addr < (files.headD default).address)) ∧
    (∀ k : Nat, k < files.length → (files.getD k default).address ≤ addr →
      (∀ j : Nat, j < files.length → (files.getD j default).address ≤ addr → j ≤ k) →
      SMXDebugFilesTable_find_file files addr = some (files.getD k default).name) ∧
    (SMXDebugLinesTable_find_file lines addr = none ↔
      (lines = [] ∨ addr < (lines.headD default).address)) ∧
    (∀ k : Nat, k < lines.length → (lines.getD k default).address ≤ addr →
      (∀ j : Nat, j < lines.length → (lines.getD j default).address ≤ addr → j ≤ k) →
      SMXDebugLinesTable_find_file lines addr = some ((lines.getD k default).line + 1)) := by
  obtain ⟨hiffF, hmaxF⟩ := find_low_char files DebugFileEntry.address addr hf
  obtain ⟨hiffL, hmaxL⟩ := find_low_char lines DebugLineEntry.address addr hl
  have hdefF : SMXDebugFilesTable_find_file files addr =
      if bsGo (fun i => (files.getD i default).address) addr
          (files.length + 2) (-1) files.length = -1
      then none
      else some (files.getD (bsGo (fun i => (files.getD i default).address) addr
          (files.length + 2) (-1) files.length).toNat default).name := rfl
  have hdefL : SMXDebugLinesTable_find_file lines addr =
      if bsGo (fun i => (lines.getD i default).address) addr
          (lines.length + 2) (-1) lines.length = -1
      then none
      else some (((lines.getD (bsGo (fun i => (lines.getD i default).address) addr
          (lines.length + 2) (-1) lines.length).toNat default).line + 1) % 2 ^ 32) := rfl
  refine ⟨?_, ?_, ?_, ?_⟩
  · rw [hdefF]
    constructor
    · intro h
      by_cases hr : bsGo (fun i => (files.getD i default).address) addr
          (files.length + 2) (-1) files.length = -1
      · exact hiffF.mp hr
      · rw [if_neg hr] at h; exact absurd h (by simp)
    · intro h
      rw [if_pos (hiffF.mpr h)]
  · intro k hk hkle hmaxk
    rw [hdefF, hmaxF k hk hkle hmaxk]
    rw [if_neg (by omega : ¬((k : Int) = -1))]
    simp
  · rw [hdefL]
    constructor
    · intro h
      by_cases hr : bsGo (fun i => (lines.getD i default).address) addr
          (lines.length + 2) (-1) lines.length = -1
      · exact hiffL.mp hr
      · rw [if_neg hr] at h; exact absurd h (by simp)
    · intro h
      rw [if_pos (hiffL.mpr h)]
  · intro k hk hkle hmaxk
    rw [hdefL, hmaxL k hk hkle hmaxk]
    rw [if_neg (by omega : ¬((k : Int) = -1))]
    have hmem : lines.getD k default ∈ lines := by
      rw [lines.getD_eq_getElem default hk]
      exact lines.getElem_mem hk
    have hlt := hline _ hmem
    rw [show ((k : Int)).toNat = k from Int.toNat_natCast k, Nat.mod_eq_of_lt hlt]

/-- Witness for C8 at the spec's own example shape: table addresses
`[10, 20, 30]`, query `15` resolves to row `0`. -/
theorem c8_find_file_greatest_le_witness :
    ([⟨10, "a"⟩, ⟨20, "b"⟩, ⟨30, "c"⟩] : List DebugFileEntry).Pairwise
      (fun a b => a.address ≤ b.address) ∧
    ([⟨10, 0⟩, ⟨20, 4⟩] : List DebugLineEntry).Pairwise
      (fun a b => a.address ≤ b.address) ∧
    (∀ e ∈ ([⟨10, 0⟩, ⟨20, 4⟩] : List DebugLineEntry), e.line + 1 < 2 ^ 32) ∧
    SMXDebugFilesTable_find_file [⟨10, "a"⟩, ⟨20, "b"⟩, ⟨30, "c"⟩] 15 = some "a" ∧
    SMXDebugLinesTable_find_file [⟨10, 0⟩, ⟨20, 4⟩] 15 = some 1 := by
  refine ⟨by decide, by decide, by decide, ?_, ?_⟩
  · exact (c8_find_file_greatest_le [⟨10, "a"⟩, ⟨20, "b"⟩, ⟨30, "c"⟩] [⟨10, 0⟩, ⟨20, 4⟩] 15
      (by decide) (by decide) (by decide)).2.1 0 (by decide) (by decide) (by decide)
  · exact (c8_find_file_greatest_le [⟨10, "a"⟩, ⟨20, "b"⟩, ⟨30, "c"⟩] [⟨10, 0⟩, ⟨20, 4⟩] 15
      (by decide) (by decide) (by decide)).2.2.2 0 (by decide) (by decide) (by decide)

/-- The strict enclosing test rejects both of a method's own endpoints. -/
theorem encloses_boundary_false (m : RTTIMethod) (c : Int)
    (h : c = m.pcode_start ∨ c = m.pcode_end) : enclosesCodeAddr c m = false := by
  unfold enclosesCodeAddr
  rcases h with h | h <;> subst h <;> simp

/-- When every debug-methods row points at a method whose pcode range has
`code_addr` sitting exactly on an endpoint, the method scan finds nothing. -/
theorem scanMethods_boundary (rtti : List RTTIMethod) (c : Int) :
    ∀ (dm : List DebugMethodEntry) (i : Nat),
    (∀ e ∈ dm, (0 ≤ e.method_index ∧ e.method_index.toNat < rtti.length) ∧
      (c = (rtti.getD e.method_index.toNat default).pcode_start ∨
       c = (rtti.getD e.method_index.toNat default).pcode_end)) →
    scanMethods rtti c dm i = some none := by
  intro dm
  induction dm with
  | nil => intro i _; rfl
  | cons e rest ih =>
    intro i h
    obtain ⟨hin, hb⟩ := h e (List.mem_cons_self e rest)
    have hf := encloses_boundary_false _ c hb
    simp only [scanMethods, if_pos hin, hf]
    exact ih (i + 1) (fun x hx => h x (List.mem_cons_of_mem e hx))

/-- C10: `find_local`'s enclosing-method test is strict at both ends — a
code address exactly equal to a method's `pcode_start` or `pcode_end` is not
treated as inside that method (the test is `code_addr > pcode_start &&
code_addr < pcode_end`), so when every debug-visible method has the code
address on one of its endpoints the local search window stays the whole
symbol table instead of being narrowed to a method's symbol range. -/
theorem c10_find_local_strict_boundaries :
    (∀ (m : RTTIMethod) (c : Int), c = m.pcode_start ∨ c = m.pcode_end →
      enclosesCodeAddr c m = false) ∧
    (∀ (f : SMXFile) (entries : List DebugVarEntry) (c a : Int)
      (dm : List DebugMethodEntry) (rtti : List RTTIMethod),
      f.debug_methods = some dm → f.rtti_methods = some rtti →
      (∀ e ∈ dm, (0 ≤ e.method_index ∧ e.method_index.toNat < rtti.length) ∧
        (c = (rtti.getD e.method_index.toNat default).pcode_start ∨
         c = (rtti.getD e.method_index.toNat default).pcode_end)) →
      find_local f entries c a = windowLoop entries c a 0 entries.length) := by
  refine ⟨fun m c h => encloses_boundary_false m c h, ?_⟩
  intro f entries c a dm rtti hdm hrtti hb
  simp only [find_local, hdm, hrtti, scanMethods_boundary rtti c dm 0 hb]

/-- Witness for C10: one method with pcode range `[10, 20]` and the query
address exactly at `pcode_start = 10`; the search window is not narrowed. -/
theorem c10_find_local_strict_boundaries_witness :
    ((⟨[], [], [], [], [], some [⟨0, 1⟩], some [⟨"m", 10, 20, 0⟩]⟩ : SMXFile).debug_methods =
      some [⟨0, 1⟩]) ∧
    ((⟨[], [], [], [], [], some [⟨0, 1⟩], some [⟨"m", 10, 20, 0⟩]⟩ : SMXFile).rtti_methods =
      some [⟨"m", 10, 20, 0⟩]) ∧
    (∀ e ∈ ([⟨0, 1⟩] : List DebugMethodEntry),
      (0 ≤ e.method_index ∧ e.method_index.toNat < ([⟨"m", 10, 20, 0⟩] : List RTTIMethod).length) ∧
      ((10 : Int) = (([⟨"m", 10, 20, 0⟩] : List RTTIMethod).getD e.method_index.toNat
          default).pcode_start ∨
       (10 : Int) = (([⟨"m", 10, 20, 0⟩] : List RTTIMethod).getD e.method_index.toNat
          default).pcode_end)) ∧
    find_local ⟨[], [], [], [], [], some [⟨0, 1⟩], some [⟨"m", 10, 20, 0⟩]⟩
        [⟨"x", 4, 0, 100⟩, ⟨"y", 8, 12, 18⟩] 10 4 =
      windowLoop [⟨"x", 4, 0, 100⟩, ⟨"y", 8, 12, 18⟩] 10 4 0
        ([(⟨"x", 4, 0, 100⟩ : DebugVarEntry), ⟨"y", 8, 12, 18⟩] : List DebugVarEntry).length :=
  ⟨rfl, rfl, by decide,
    c10_find_local_strict_boundaries.2 _ [⟨"x", 4, 0, 100⟩, ⟨"y", 8, 12, 18⟩] 10 4
      [⟨0, 1⟩] [⟨"m", 10, 20, 0⟩] rfl rfl (by decide)⟩

/-- C6 counterexample: on `[CONST, ARRAY, CONST, INT32]` the source decoder
(array element decoded with `decode`, sharing the flag) renders
`"const int[]"`, while a decoder that — as the claim states — resets the
flag at each array element boundary renders `"const const int[]"`: the
claim's "including each array element type" is false of the code. -/
theorem c6_array_element_not_reset_counterexample :
    decodeM emptyFile [0x73, 0x31, 0x73, 0x06] 20 TBMode.mnew ⟨0, false⟩ =
      some ("const int[]", ⟨4, false⟩) ∧
    decodeSpecM emptyFile [0x73, 0x31, 0x73, 0x06] 20 TBMode.mnew ⟨0, false⟩ =
      some ("const const int[]", ⟨4, false⟩) ∧
    decodeM emptyFile [0x73, 0x31, 0x73, 0x06] 20 TBMode.mnew ⟨0, false⟩ ≠
      decodeSpecM emptyFile [0x73, 0x31, 0x73, 0x06] 20 TBMode.mnew ⟨0, false⟩ := by
  refine ⟨by decide, by decide, ?_⟩
  decide

/-- C6 (amended): the `is_const` flag is reset at each `decode_new`
boundary (top-level types, typeset members, function return and argument
types), the rendered string is prefixed with `"const "` exactly when the
inner decode set the flag, and the caller's flag value is restored after
the call; array element types are dependent and share the enclosing
decode's flag instead of resetting it; `[CONST, INT32]` decodes to
`"const int"`. -/
theorem c6_const_flag_discipline :
    (∀ (f : SMXFile) (bytes : List Nat) (fuel : Nat) (s : TB) (out : String × TB),
      decodeM f bytes fuel TBMode.mnew s = some out → out.2.is_const = s.is_const) ∧
    decodeM emptyFile [0x73, 0x06] 20 TBMode.mnew ⟨0, false⟩ =
      some ("const int", ⟨2, false⟩) ∧
    decodeM emptyFile [0x06] 20 TBMode.mnew ⟨0, false⟩ = some ("int", ⟨1, false⟩) ∧
    decodeM emptyFile [0x73, 0x31, 0x73, 0x06] 20 TBMode.mnew ⟨0, false⟩ =
      some ("const int[]", ⟨4, false⟩) := by
  refine ⟨?_, by decide, by decide, by decide⟩
  intro f bytes fuel s out h
  match fuel with
  | 0 => exact absurd h (by simp [decodeM])
  | fuel + 1 =>
    match hin : decodeM f bytes fuel TBMode.mplain { s with is_const := false } with
    | none => rw [decodeM, hin] at h; exact absurd h (by simp)
    | some (r, s') =>
      rw [decodeM, hin] at h
      cases h
      rfl

/-- Witness for C6: `decode_new` called with the caller's flag already set
returns with that flag intact. -/
theorem c6_const_flag_discipline_witness :
    decodeM emptyFile [0x73, 0x06] 20 TBMode.mnew ⟨0, true⟩ =
      some ("const int", ⟨2, true⟩) ∧
    (("const int", (⟨2, true⟩ : TB)) : String × TB).2.is_const = (⟨0, true⟩ : TB).is_const :=
  ⟨by decide,
    c6_const_flag_discipline.1 emptyFile [0x73, 0x06] 20 ⟨0, true⟩ ("const int", ⟨2, true⟩)
      (by decide)⟩

/-- C7 counterexample: the truncated type blob `[ARRAY]` under a complex
type-id (kind 1, offset 0) makes the decoder read past the end of the
stream — a panic, not a rendered string — refuting "never aborts for
malformed type bytes / every input yields some rendered string". -/
theorem c7_truncated_stream_aborts_counterexample :
    type_from_id emptyFile [0x31] 1 = none := by decide

/-- C7 (amended): type decoding never returns a structured error — an
unrecognized type-id kind renders the descriptive
`"Unknown type_id kind: <k>"` string, and an unrecognized (in-bounds) tag
byte renders `"unknown type code: <b>"` — but decoding can still abort
(panic) on a truncated type byte stream or an out-of-range cross-table
index, so not every input yields a rendered string. -/
theorem c7_soft_failure_rendering :
    (∀ (f : SMXFile) (bytes : List Nat) (type_id : Nat),
      type_id % 16 ≠ 0 → type_id % 16 ≠ 1 →
      type_from_id f bytes type_id =
        some ("Unknown type_id kind: " ++ toString (type_id % 16))) ∧
    (∀ (f : SMXFile) (bytes : List Nat) (fuel : Nat) (s : TB) (b : Nat),
      bytes.get? s.offset = some b → b ≠ 0x73 →
      b ∉ ([0x01, 0x06, 0x0c, 0x0e, 0x10, 0x11, 0x30, 0x31, 0x32,
            0x42, 0x43, 0x44, 0x45, 0x46] : List Nat) →
      decodeM f bytes (fuel + 1) TBMode.mplain s =
        some ("unknown type code: " ++ toString b, { s with offset := s.offset + 1 })) := by
  constructor
  · intro f bytes type_id h0 h1
    rw [type_from_id]
    rw [if_neg h0, if_pos h1]
  · intro f bytes fuel s b hb hc hnotin
    simp only [List.mem_cons, List.not_mem_nil, or_false, not_or] at hnotin
    obtain ⟨n01, n06, n0c, n0e, n10, n11, n30, n31, n32, n42, n43, n44, n45, n46⟩ := hnotin
    have hm : tbMatch bytes 0x73 s = some (false, s) := by
      rw [tbMatch, hb]
      simp [hc]
    rw [decodeM, hm]
    show (match bytes.get? s.offset with
      | none => none
      | some b => _) = _
    rw [hb]
    simp only [if_neg n01, if_neg n06, if_neg n0c, if_neg n0e, if_neg n10, if_neg n11,
      if_neg n30, if_neg n31, if_neg n42, if_neg n43, if_neg n44, if_neg n45,
      if_neg n32, if_neg n46]
    simp

/-- Witness for C7: kind `5` renders the unknown-kind string; tag `0x50`
renders the unknown-tag string. -/
theorem c7_soft_failure_rendering_witness :
    ((5 : Nat) % 16 ≠ 0) ∧ ((5 : Nat) % 16 ≠ 1) ∧
    type_from_id emptyFile [] 5 = some ("Unknown type_id kind: " ++ toString ((5 : Nat) % 16)) ∧
    (([0x50] : List Nat).get? 0 = some 0x50) ∧ ((0x50 : Nat) ≠ 0x73) ∧
    ((0x50 : Nat) ∉ ([0x01, 0x06, 0x0c, 0x0e, 0x10, 0x11, 0x30, 0x31, 0x32,
        0x42, 0x43, 0x44, 0x45, 0x46] : List Nat)) ∧
    decodeM emptyFile [0x50] 8 TBMode.mplain ⟨0, false⟩ =
      some ("unknown type code: " ++ toString (0x50 : Nat),
        { (⟨0, false⟩ : TB) with offset := (⟨0, false⟩ : TB).offset + 1 }) :=
  ⟨by decide, by decide,
    c7_soft_failure_rendering.1 emptyFile [] 5 (by decide) (by decide),
    by decide, by decide, by decide,
    c7_soft_failure_rendering.2 emptyFile [0x50] 7 ⟨0, false⟩ 0x50 (by decide) (by decide)
      (by decide)⟩

/-- C1: the globals boundary law fails in the code: `new` leaves
`address_sorted` empty and `ensure_sorted_addresses` sorts that empty
working copy in place without ever copying `entries` into it, so
`find_global` scans an empty list and returns `none` for every address —
including all four addresses of the claim's `[0, 8, 16]` example. -/
theorem c1_find_global_dead_cache :
    (∀ (entries : List DebugVarEntry) (addr : Int), find_global ⟨entries, []⟩ addr = none) ∧
    find_global ⟨[⟨"g0", 0, 0, 0⟩, ⟨"g1", 8, 0, 0⟩, ⟨"g2", 16, 0, 0⟩], []⟩ 0 = none ∧
    find_global ⟨[⟨"g0", 0, 0, 0⟩, ⟨"g1", 8, 0, 0⟩, ⟨"g2", 16, 0, 0⟩], []⟩ 7 = none ∧
    find_global ⟨[⟨"g0", 0, 0, 0⟩, ⟨"g1", 8, 0, 0⟩, ⟨"g2", 16, 0, 0⟩], []⟩ 8 = none ∧
    find_global ⟨[⟨"g0", 0, 0, 0⟩, ⟨"g1", 8, 0, 0⟩, ⟨"g2", 16, 0, 0⟩], []⟩ 20 = none :=
  ⟨fun _ _ => rfl, by decide, by decide, by decide, by decide⟩

/-- C2: `typeset_types_from_offset` decodes the count through
`&mut offset.clone()`, discarding the advance, so the first type signature
is decoded from `offset` itself — the count byte `0x01` is re-read as a
`BOOL` tag, yielding `["bool"]` where decoding from the position after the
count would read `INT32` and yield `["int"]`. -/
theorem c2_typeset_decodes_from_count_offset :
    typeset_types_from_offset emptyFile [0x01, 0x06] 0 = some ["bool"] ∧
    typeset_types_from_offset emptyFile [0x01, 0x06] 0 ≠ some ["int"] := by decide

/-- C3: the claim's two examples hold, but the general base-128 law fails:
the per-byte contribution `(b & 0x7f) << shift` is computed in `u8`, so on
`[0x81, 0x02]` the second byte's contribution `2 << 7` truncates to `0` and
the code returns `1` where the little-endian base-128 value is `257`. -/
theorem c3_decode_u32_truncates_contributions :
    decode_u32 [0x81, 0x01] 0 = some (129, 2) ∧
    decode_u32 [0x05] 0 = some (5, 1) ∧
    varintValue [0x81, 0x02] = some 257 ∧
    decode_u32 [0x81, 0x02] 0 = some (1, 2) := by decide

/-- C4: `string_at` is idempotent (the second call over byte pool
`"foo\0"` at offset `0` returns the same result), but not memoized: the
call returns the table with its `names` cache still empty, so the second
call rescans the section bytes instead of hitting a cache. -/
theorem c4_string_at_cache_never_populated :
    string_at ⟨[102, 111, 111, 0], []⟩ 0 =
      some (some [102, 111, 111], ⟨[102, 111, 111, 0], []⟩) ∧
    ((string_at ⟨[102, 111, 111, 0], []⟩ 0).bind fun p => string_at p.2 0) =
      string_at ⟨[102, 111, 111, 0], []⟩ 0 := by decide

/-- C5: every row read of `SMXDebugMethods::new` is handed a fresh copy of
the whole section, so each row is parsed from the section start: on a
section with header `(12, 8, 2)` followed by rows `(1, 2)` and `(3, 4)`,
both decoded entries are `(12, 8)` — the header's own first eight bytes —
instead of the sequential `(1, 2)`, `(3, 4)`, and the reads consume bytes
`[0, 8)` twice rather than `header_size + row_count * row_size` bytes. -/
theorem c5_row_reads_restart_at_section_start :
    SMXDebugMethods_new ([12, 0, 0, 0, 8, 0, 0, 0, 2, 0, 0, 0] ++
      [1, 0, 0, 0, 2, 0, 0, 0] ++ [3, 0, 0, 0, 4, 0, 0, 0]) = some [⟨12, 8⟩, ⟨12, 8⟩] ∧
    some [(⟨12, 8⟩ : DebugMethodEntry), ⟨12, 8⟩] ≠
      some [(⟨1, 2⟩ : DebugMethodEntry), ⟨3, 4⟩] := by decide

/-- C9: concrete function-signature renderings: `argc=2`, no variadic,
`VOID` return, args `INT32` and `BYREF FLOAT32` give
`"function void (int, float&)"`; `argc=1`, `VARIADIC`, `CHAR8` return, arg
`ANY` gives `"function char (any...)"`, the ellipsis directly after the
last argument before the closing parenthesis. -/
theorem c9_function_signature_rendering :
    function_type_from_offset emptyFile [0x02, 0x70, 0x06, 0x72, 0x0c] 0 =
      some "function void (int, float&)" ∧
    function_type_from_offset emptyFile [0x01, 0x71, 0x0e, 0x10] 0 =
      some "function char (any...)" := by decide
